import Mathlib

/-!
Verification of the step-by-step math tutoring application: the step parser
(`parseSteps` in the Solution page), the local heuristic answer grader, the
remote `validate-answer` edge function (zod schema, auth gate, AI-response
parsing with code-fence stripping and substring fallback), and the submit
handler's state transitions on the Solution page.

Strings are modelled as `List Char` where scanning matters, `String` at the
interfaces.  The JavaScript regular expression
`Step \d+:([^|]+)\|?\s*Hint:([^|]+)\|?\s*Answer:([^\n]+)` with flags `gi` is
hand-compiled into a backtracking matcher whose greedy quantifiers try the
longest candidate first, exactly as the JS engine does.
-/

/-- The JavaScript whitespace class `\s` (also the set trimmed by
`String.prototype.trim`): tab, LF, VT, FF, CR, space, NBSP, and the Unicode
space separators plus BOM. -/
def wsChars : List Char :=
  [ '\t', '\n', '\x0b', '\x0c', '\r', ' ', '\u00a0', '\u1680',
    '\u2000', '\u2001', '\u2002', '\u2003', '\u2004', '\u2005', '\u2006',
    '\u2007', '\u2008', '\u2009', '\u200a', '\u2028', '\u2029', '\u202f',
    '\u205f', '\u3000', '\ufeff' ]

def isJsWs (c : Char) : Bool := wsChars.contains c

/-- JavaScript `String.prototype.trim`: drop leading and trailing whitespace. -/
def jsTrim (l : List Char) : List Char :=
  ((l.dropWhile isJsWs).reverse.dropWhile isJsWs).reverse

/-- ASCII lower-casing, the case-folding used by a JS regex `i` flag on the
ASCII literals appearing in the step pattern (non-ASCII characters are not
canonicalised to ASCII by a non-unicode JS regex). -/
def lcAscii (c : Char) : Char :=
  if 65 ≤ c.toNat ∧ c.toNat ≤ 90 then Char.ofNat (c.toNat + 32) else c

/-- Case-insensitive character comparison for the `i` flag. -/
def ciEq (a b : Char) : Bool := lcAscii a == lcAscii b

/-- Pointwise case-insensitive equality of two character lists. -/
def ciList : List Char → List Char → Bool
  | [], [] => true
  | a :: as, b :: bs => ciEq a b && ciList as bs
  | _, _ => false

def digitChars : List Char := ['0', '1', '2', '3', '4', '5', '6', '7', '8', '9']

def isDigitCh (c : Char) : Bool := digitChars.contains c

def notPipe (c : Char) : Bool := !(c == '|')

def neNl (c : Char) : Bool := !(c == '\n')

/-- Match a literal (case-insensitively) at the head of the input, then
run the continuation on what follows. -/
def litThen (lit : List Char) (cont : List Char → Option α) (s : List Char) : Option α :=
  match lit, s with
  | [], _ => cont s
  | _ :: _, [] => none
  | l :: lt, c :: ct => if ciEq l c then litThen lt cont ct else none

def wsThenAux (cont : List Char → Option α) (s : List Char) : Nat → Option α
  | 0 => cont s
  | n + 1 =>
    match cont (s.drop (n + 1)) with
    | some a => some a
    | none => wsThenAux cont s n

/-- Greedy `\s*` followed by the continuation: try consuming the longest
whitespace run first, backtracking one character at a time. -/
def wsThen (cont : List Char → Option α) (s : List Char) : Option α :=
  wsThenAux cont s (s.takeWhile isJsWs).length

/-- Greedy `\|?\s*` followed by the continuation: the pipe branch is tried
first, falling back to matching zero pipes. -/
def pipeWsThen (cont : List Char → Option α) (s : List Char) : Option α :=
  match s with
  | c :: t =>
    if c == '|' then
      match wsThen cont t with
      | some a => some a
      | none => wsThen cont (c :: t)
    else wsThen cont (c :: t)
  | [] => wsThen cont []

def plusThenAux (cont : List Char → Option (α)) (s : List Char) : Nat → Option (List Char × α)
  | 0 => none
  | n + 1 =>
    match cont (s.drop (n + 1)) with
    | some a => some (s.take (n + 1), a)
    | none => plusThenAux cont s n

/-- Greedy one-or-more character class `(C+)` followed by the continuation:
the candidates are the nonempty prefixes of the maximal run of class
characters, longest first; the matched capture is returned. -/
def plusThen (keep : Char → Bool) (cont : List Char → Option α) (s : List Char) :
    Option (List Char × α) :=
  plusThenAux cont s (s.takeWhile keep).length

def stepKw : List Char := ['s', 't', 'e', 'p', ' ']

def hintKw : List Char := ['h', 'i', 'n', 't', ':']

def answerKw : List Char := ['a', 'n', 's', 'w', 'e', 'r', ':']

/-- The trailing `([^\n]+)` group: maximal nonempty run of non-newline
characters. -/
def matchG3 (s : List Char) : Option (List Char × List Char) :=
  if (s.takeWhile neNl).isEmpty then none
  else some (s.takeWhile neNl, s.drop (s.takeWhile neNl).length)

/-- `\|?\s*Answer:([^\n]+)`. -/
def matchAnswerPart (s : List Char) : Option (List Char × List Char) :=
  pipeWsThen (litThen answerKw matchG3) s

/-- `\|?\s*Hint:([^|]+)\|?\s*Answer:([^\n]+)`. -/
def matchHintPart (s : List Char) : Option (List Char × (List Char × List Char)) :=
  pipeWsThen (litThen hintKw (plusThen notPipe matchAnswerPart)) s

/-- `([^|]+)\|?\s*Hint:([^|]+)\|?\s*Answer:([^\n]+)`. -/
def matchBody (s : List Char) : Option (List Char × (List Char × (List Char × List Char))) :=
  plusThen notPipe matchHintPart s

/-- `\d+:` followed by the body. -/
def matchDigitsColon (s : List Char) :
    Option (List Char × (List Char × (List Char × (List Char × List Char)))) :=
  plusThen isDigitCh
    (fun t =>
      match t with
      | c :: u => if c == ':' then matchBody u else none
      | [] => none) s

/-- The three capture groups of one regex match. -/
abbrev Caps3 := List Char × List Char × List Char

/-- Attempt the whole step regex anchored at the start of `s`; on success
return the three captures and the input remaining after the match. -/
def matchAt (s : List Char) : Option (Caps3 × List Char) :=
  match litThen stepKw matchDigitsColon s with
  | some (_, (g1, (g2, (g3, rest)))) => some ((g1, g2, g3), rest)
  | none => none

/-- Leftmost match at or after the start of `s`, as `regex.exec` finds it. -/
def findFrom : List Char → Option (Caps3 × List Char)
  | [] => matchAt []
  | c :: t =>
    match matchAt (c :: t) with
    | some r => some r
    | none => findFrom t

/-- One step extracted from a step-by-step solution text. -/
structure Step where
  instruction : String
  hint : String
  answer : String
deriving DecidableEq

def mkStep (caps : Caps3) : Step :=
  ⟨String.mk (jsTrim caps.1), String.mk (jsTrim caps.2.1), String.mk (jsTrim caps.2.2)⟩

theorem litThen_some_len {α} (cont : List Char → Option α) :
    ∀ (lit s : List Char) (a : α), litThen lit cont s = some a →
      ∃ t, cont t = some a ∧ t.length + lit.length = s.length := by
  intro lit
  induction lit with
  | nil => intro s a h; exact ⟨s, h, by simp⟩
  | cons l lt ih =>
    intro s a h
    match s with
    | [] => simp [litThen] at h
    | c :: ct =>
      simp only [litThen] at h
      split at h
      · obtain ⟨t, ht, hlen⟩ := ih ct a h
        exact ⟨t, ht, by simp [List.length_cons]; omega⟩
      · exact absurd h (by simp)

theorem wsThenAux_some_len {α} (cont : List Char → Option α) (s : List Char) :
    ∀ (n : Nat) (a : α), wsThenAux cont s n = some a →
      ∃ t, cont t = some a ∧ t.length ≤ s.length := by
  intro n
  induction n with
  | zero => intro a h; exact ⟨s, h, le_refl _⟩
  | succ m ih =>
    intro a h
    simp only [wsThenAux] at h
    split at h
    · rename_i heq
      cases h
      exact ⟨s.drop (m + 1), heq, by simp⟩
    · exact ih a h

theorem wsThen_some_len {α} (cont : List Char → Option α) (s : List Char) (a : α)
    (h : wsThen cont s = some a) : ∃ t, cont t = some a ∧ t.length ≤ s.length :=
  wsThenAux_some_len cont s _ a h

theorem pipeWsThen_some_len {α} (cont : List Char → Option α) (s : List Char) (a : α)
    (h : pipeWsThen cont s = some a) : ∃ t, cont t = some a ∧ t.length ≤ s.length := by
  cases s with
  | nil => exact wsThen_some_len cont [] a (by simpa [pipeWsThen] using h)
  | cons c t =>
    simp only [pipeWsThen] at h
    by_cases hc : (c == '|') = true
    · rw [if_pos hc] at h
      split at h
      · rename_i a0 hw
        cases h
        obtain ⟨u, hu, hlen⟩ := wsThen_some_len cont t _ hw
        exact ⟨u, hu, by simp only [List.length_cons]; omega⟩
      · exact wsThen_some_len cont _ a h
    · rw [if_neg hc] at h
      exact wsThen_some_len cont _ a h

theorem plusThenAux_some {α} (cont : List Char → Option α) (s : List Char) :
    ∀ (n : Nat) (g : List Char) (a : α), plusThenAux cont s n = some (g, a) →
      ∃ k, 1 ≤ k ∧ cont (s.drop k) = some a := by
  intro n
  induction n with
  | zero => intro g a h; simp [plusThenAux] at h
  | succ m ih =>
    intro g a h
    simp only [plusThenAux] at h
    split at h
    · rename_i heq
      cases h
      exact ⟨m + 1, by omega, heq⟩
    · exact ih g a h

theorem plusThen_some_len {α} (keep : Char → Bool) (cont : List Char → Option α)
    (s : List Char) (g : List Char) (a : α)
    (h : plusThen keep cont s = some (g, a)) :
    ∃ t, cont t = some a ∧ t.length < s.length := by
  match s with
  | [] => simp [plusThen, plusThenAux] at h
  | c :: cs =>
    obtain ⟨k, hk, hc⟩ := plusThenAux_some cont (c :: cs) _ g a h
    refine ⟨(c :: cs).drop k, hc, ?_⟩
    rw [List.length_drop]
    simp only [List.length_cons]
    omega

theorem matchG3_some_len (s : List Char) (g rest : List Char)
    (h : matchG3 s = some (g, rest)) : rest.length < s.length := by
  unfold matchG3 at h
  split at h
  · exact absurd h (by simp)
  · rename_i hne
    rw [Option.some.injEq, Prod.mk.injEq] at h
    have h1 : (s.takeWhile neNl).length ≤ s.length := (List.takeWhile_prefix neNl).length_le
    have h2 : (s.takeWhile neNl).length ≠ 0 := by
      simpa [List.isEmpty_iff, List.length_eq_zero] using hne
    rw [← h.2, List.length_drop]
    omega

theorem matchAnswerPart_some_len (s : List Char) (g rest : List Char)
    (h : matchAnswerPart s = some (g, rest)) : rest.length < s.length := by
  obtain ⟨t, ht, hlen⟩ := pipeWsThen_some_len _ s _ h
  obtain ⟨u, hu, hlen2⟩ := litThen_some_len _ _ _ _ ht
  have := matchG3_some_len u g rest hu
  simp [answerKw] at hlen2
  omega

theorem matchHintPart_some_len (s : List Char) (g : List Char) (p : List Char × List Char)
    (h : matchHintPart s = some (g, p)) : p.2.length < s.length := by
  obtain ⟨t, ht, hlen⟩ := pipeWsThen_some_len _ s _ h
  obtain ⟨u, hu, hlen2⟩ := litThen_some_len _ _ _ _ ht
  obtain ⟨v, hv, hlen3⟩ := plusThen_some_len _ _ u _ _ hu
  have := matchAnswerPart_some_len v p.1 p.2 (by rwa [← Prod.mk.eta (p := p)] at hv)
  simp [hintKw] at hlen2
  omega

theorem matchBody_some_len (s : List Char) (g1 : List Char)
    (q : List Char × (List Char × List Char))
    (h : matchBody s = some (g1, q)) : q.2.2.length < s.length := by
  obtain ⟨t, ht, hlen⟩ := plusThen_some_len _ _ s _ _ h
  have := matchHintPart_some_len t q.1 q.2 (by rwa [← Prod.mk.eta (p := q)] at ht)
  omega

theorem matchDigitsColon_some_len (s : List Char) (ds : List Char)
    (q : List Char × (List Char × (List Char × List Char)))
    (h : matchDigitsColon s = some (ds, q)) : q.2.2.2.length < s.length := by
  obtain ⟨t, ht, hlen⟩ := plusThen_some_len _ _ s _ _ h
  cases t with
  | nil => simp at ht
  | cons c u =>
    simp only at ht
    split at ht
    · have := matchBody_some_len u q.1 q.2 (by rwa [← Prod.mk.eta (p := q)] at ht)
      simp only [List.length_cons] at hlen
      omega
    · exact absurd ht (by simp)

theorem matchAt_some_len (s : List Char) (caps : Caps3) (rest : List Char)
    (h : matchAt s = some (caps, rest)) : rest.length < s.length := by
  unfold matchAt at h
  split at h
  · rename_i ds g1 g2 g3 r heq
    cases h
    obtain ⟨t, ht, hlen⟩ := litThen_some_len _ _ _ _ heq
    have := matchDigitsColon_some_len t ds (g1, (g2, (g3, rest))) ht
    simp [stepKw] at hlen
    simp at this
    omega
  · exact absurd h (by simp)

theorem findFrom_some_len :
    ∀ (s : List Char) (caps : Caps3) (rest : List Char),
      findFrom s = some (caps, rest) → rest.length < s.length := by
  intro s
  induction s with
  | nil =>
    intro caps rest h
    simp only [findFrom] at h
    exact absurd (matchAt_some_len [] caps rest h) (by simp)
  | cons c t ih =>
    intro caps rest h
    simp only [findFrom] at h
    split at h
    · rename_i heq
      cases h
      exact matchAt_some_len _ caps rest heq
    · have := ih caps rest h
      simp only [List.length_cons]
      omega

def execLoopFuel : Nat → List Char → List Step
  | 0, _ => []
  | n + 1, s =>
    match findFrom s with
    | some (caps, rest) => mkStep caps :: execLoopFuel n rest
    | none => []

/-- The `while ((match = stepRegex.exec(solutionText)) !== null)` loop:
collect every non-overlapping match left to right.  Every match consumes at
least one character, so `s.length + 1` rounds always suffice. -/
def execLoop (s : List Char) : List Step :=
  execLoopFuel (s.length + 1) s

theorem execLoopFuel_congr :
    ∀ (n m : Nat) (s : List Char), s.length < n → s.length < m →
      execLoopFuel n s = execLoopFuel m s := by
  intro n
  induction n with
  | zero => intro m s hn _; omega
  | succ k ih =>
    intro m s hn hm
    cases m with
    | zero => omega
    | succ j =>
      simp only [execLoopFuel]
      cases hf : findFrom s with
      | none => rfl
      | some pr =>
        obtain ⟨caps, rest⟩ := pr
        have hlt := findFrom_some_len s caps rest hf
        show mkStep caps :: execLoopFuel k rest = mkStep caps :: execLoopFuel j rest
        rw [ih j rest (by omega) (by omega)]

/-- JavaScript `String.prototype.split` on a single newline. -/
def splitNl : List Char → List (List Char)
  | [] => [[]]
  | c :: t =>
    if c == '\n' then [] :: splitNl t
    else
      match splitNl t with
      | h :: r => (c :: h) :: r
      | [] => [[c]]

def fallbackHint : String := "Think about the mathematical principles involved."

def fallbackAnswer : String := "Check your work carefully"

def placeholderStep (l : List Char) : Step :=
  ⟨String.mk l, fallbackHint, fallbackAnswer⟩

/-- `parseSteps` from the Solution page: all regex matches, else up to the
first four non-blank lines as placeholder steps. -/
def parseSteps (solutionText : String) : List Step :=
  let parsedSteps := execLoop solutionText.data
  if parsedSteps.isEmpty then
    ((((splitNl solutionText.data).filter (fun l => !(jsTrim l).isEmpty)).take 4).map
      placeholderStep)
  else parsedSteps

theorem takeWhile_app_all {p : Char → Bool} :
    ∀ (l r : List Char), (∀ c ∈ l, p c = true) → (l ++ r).takeWhile p = l ++ r.takeWhile p := by
  intro l
  induction l with
  | nil => intro r _; simp
  | cons x xs ih =>
    intro r h
    have hx : p x = true := h x (by simp)
    simp only [List.cons_append, List.takeWhile_cons, hx, if_true]
    rw [ih r (fun c hc => h c (by simp [hc]))]

theorem takeWhile_app_stop {p : Char → Bool} (g r : List Char)
    (hall : ∀ c ∈ g, p c = true) (hstop : r.takeWhile p = []) :
    (g ++ r).takeWhile p = g := by
  rw [takeWhile_app_all g r hall, hstop, List.append_nil]

theorem takeWhile_nil_cons {p : Char → Bool} {x : Char} {xs : List Char} (h : p x = false) :
    (x :: xs).takeWhile p = [] := by
  simp [List.takeWhile_cons, h]

theorem ciList_cons_shape {a : Char} {l p : List Char} (h : ciList (a :: l) p = true) :
    ∃ x xs, p = x :: xs ∧ ciEq a x = true ∧ ciList l xs = true := by
  cases p with
  | nil => simp [ciList] at h
  | cons x xs =>
    simp only [ciList, Bool.and_eq_true] at h
    exact ⟨x, xs, rfl, h.1, h.2⟩

theorem litThen_exact {α} (cont : List Char → Option α) :
    ∀ (lit p : List Char), ciList lit p = true → ∀ r, litThen lit cont (p ++ r) = cont r := by
  intro lit
  induction lit with
  | nil =>
    intro p hp r
    cases p with
    | nil => simp [litThen]
    | cons x xs => simp [ciList] at hp
  | cons l lt ih =>
    intro p hp r
    cases p with
    | nil => simp [ciList] at hp
    | cons x xs =>
      simp only [ciList, Bool.and_eq_true] at hp
      simp only [List.cons_append, litThen, hp.1, if_true]
      exact ih xs hp.2 r

theorem wsThen_exact {α} (cont : List Char → Option α) (g r : List Char) (a : α)
    (hall : ∀ c ∈ g, isJsWs c = true) (hstop : r.takeWhile isJsWs = [])
    (hc : cont r = some a) : wsThen cont (g ++ r) = some a := by
  unfold wsThen
  rw [takeWhile_app_stop g r hall hstop]
  cases g with
  | nil => simpa [wsThenAux] using hc
  | cons x xs =>
    have hd : ((x :: xs) ++ r).drop (xs.length + 1) = r := by
      simpa using List.drop_left (x :: xs) r
    simp only [List.length_cons, wsThenAux, hd, hc]

theorem pipeWs_pipe {α} (cont : List Char → Option α) (t : List Char) (a : α)
    (h : wsThen cont t = some a) : pipeWsThen cont ('|' :: t) = some a := by
  simp [pipeWsThen, h]

theorem plusThen_exact {α} (keep : Char → Bool) (cont : List Char → Option α)
    (g r : List Char) (a : α) (hg : g ≠ []) (hall : ∀ c ∈ g, keep c = true)
    (hstop : r.takeWhile keep = []) (hc : cont r = some a) :
    plusThen keep cont (g ++ r) = some (g, a) := by
  unfold plusThen
  rw [takeWhile_app_stop g r hall hstop]
  cases g with
  | nil => exact absurd rfl hg
  | cons x xs =>
    have hd : ((x :: xs) ++ r).drop (xs.length + 1) = r := by
      simpa using List.drop_left (x :: xs) r
    have htk : ((x :: xs) ++ r).take (xs.length + 1) = x :: xs := by
      simpa using List.take_left (x :: xs) r
    simp only [List.length_cons, plusThenAux, hd, hc, htk]

theorem matchG3_exact (g r : List Char) (hg : g ≠ []) (hall : ∀ c ∈ g, neNl c = true)
    (hstop : r.takeWhile neNl = []) : matchG3 (g ++ r) = some (g, r) := by
  have htw : (g ++ r).takeWhile neNl = g := takeWhile_app_stop g r hall hstop
  unfold matchG3
  rw [htw, if_neg (by simpa [List.isEmpty_iff] using hg), List.drop_left]

/-- The naming of the continuation used after the digits of `Step \d+:`. -/
def digitCont (t : List Char) :
    Option (List Char × (List Char × (List Char × List Char))) :=
  match t with
  | c :: u => if c == ':' then matchBody u else none
  | [] => none

theorem matchDigitsColon_eq (s : List Char) :
    matchDigitsColon s = plusThen isDigitCh digitCont s := rfl

/-- A well-formed source line for the step pattern, decomposed into the
keyword occurrences (in arbitrary case), the digits, the three captured
texts, and the whitespace gaps around the separators. -/
structure WfStep where
  sk : List Char
  ds : List Char
  instr : List Char
  gap1 : List Char
  hk : List Char
  hint : List Char
  gap2 : List Char
  ak : List Char
  ans : List Char
deriving DecidableEq

/-- The rendered line `<sk><ds>:<instr>|<gap1><hk><hint>|<gap2><ak><ans>`,
e.g. `Step 1: Solve for x | Hint: isolate x | Answer: x = 4`. -/
def WfStep.render (d : WfStep) : List Char :=
  d.sk ++ (d.ds ++ (':' :: (d.instr ++ ('|' ::
    (d.gap1 ++ (d.hk ++ (d.hint ++ ('|' :: (d.gap2 ++ (d.ak ++ d.ans))))))))))

/-- Well-formedness: the keywords are case variants of `step `, `hint:` and
`answer:`, the step number is a nonempty digit run, the three captured texts
are nonempty, contain no separator pipe and no newline, and the gaps after
the pipes are newline-free whitespace. -/
def WfStep.ok (d : WfStep) : Prop :=
  ciList stepKw d.sk = true ∧
  d.ds ≠ [] ∧ (∀ c ∈ d.ds, isDigitCh c = true) ∧
  d.instr ≠ [] ∧ (∀ c ∈ d.instr, notPipe c = true) ∧ (∀ c ∈ d.instr, neNl c = true) ∧
  (∀ c ∈ d.gap1, isJsWs c = true) ∧ (∀ c ∈ d.gap1, neNl c = true) ∧
  ciList hintKw d.hk = true ∧ (∀ c ∈ d.hk, isJsWs c = false) ∧
  d.hint ≠ [] ∧ (∀ c ∈ d.hint, notPipe c = true) ∧ (∀ c ∈ d.hint, neNl c = true) ∧
  (∀ c ∈ d.gap2, isJsWs c = true) ∧ (∀ c ∈ d.gap2, neNl c = true) ∧
  ciList answerKw d.ak = true ∧ (∀ c ∈ d.ak, isJsWs c = false) ∧
  d.ans ≠ [] ∧ (∀ c ∈ d.ans, neNl c = true)

instance (d : WfStep) : Decidable d.ok := by
  unfold WfStep.ok
  infer_instance

/-- The step record the parser is expected to produce from a well-formed
line: the three captures with surrounding whitespace trimmed. -/
def WfStep.toStep (d : WfStep) : Step :=
  ⟨String.mk (jsTrim d.instr), String.mk (jsTrim d.hint), String.mk (jsTrim d.ans)⟩

theorem matchAt_render (d : WfStep) (rest : List Char) (hok : d.ok)
    (hrest : rest.takeWhile neNl = []) :
    matchAt (d.render ++ rest) = some ((d.instr, d.hint, d.ans), rest) := by
  obtain ⟨hsk, hds_ne, hds_all, hinstr_ne, hinstr_np, hinstr_nl, hgap1_ws, hgap1_nl,
    hhk, hhk_nws, hhint_ne, hhint_np, hhint_nl, hgap2_ws, hgap2_nl,
    hak, hak_nws, hans_ne, hans_nl⟩ := hok
  obtain ⟨kx, kxs, hkshape, -, -⟩ := ciList_cons_shape hhk
  obtain ⟨ax, axs, hashape, -, -⟩ := ciList_cons_shape hak
  have hkx_ws : isJsWs kx = false := hhk_nws kx (by rw [hkshape]; simp)
  have hax_ws : isJsWs ax = false := hak_nws ax (by rw [hashape]; simp)
  have h1 : matchG3 (d.ans ++ rest) = some (d.ans, rest) :=
    matchG3_exact d.ans rest hans_ne hans_nl hrest
  have h2 : litThen answerKw matchG3 (d.ak ++ (d.ans ++ rest)) = some (d.ans, rest) := by
    rw [litThen_exact matchG3 answerKw d.ak hak]; exact h1
  have hstop_ak : (d.ak ++ (d.ans ++ rest)).takeWhile isJsWs = [] := by
    rw [hashape, List.cons_append]; exact takeWhile_nil_cons hax_ws
  have h3 : wsThen (litThen answerKw matchG3)
      (d.gap2 ++ (d.ak ++ (d.ans ++ rest))) = some (d.ans, rest) :=
    wsThen_exact _ _ _ _ hgap2_ws hstop_ak h2
  have h4 : matchAnswerPart ('|' :: (d.gap2 ++ (d.ak ++ (d.ans ++ rest))))
      = some (d.ans, rest) := by
    unfold matchAnswerPart; exact pipeWs_pipe _ _ _ h3
  have hstop_p2 : ('|' :: (d.gap2 ++ (d.ak ++ (d.ans ++ rest)))).takeWhile notPipe = [] :=
    takeWhile_nil_cons (by decide)
  have h5 : plusThen notPipe matchAnswerPart
      (d.hint ++ ('|' :: (d.gap2 ++ (d.ak ++ (d.ans ++ rest)))))
      = some (d.hint, (d.ans, rest)) :=
    plusThen_exact notPipe matchAnswerPart d.hint _ _ hhint_ne hhint_np hstop_p2 h4
  have h6 : litThen hintKw (plusThen notPipe matchAnswerPart)
      (d.hk ++ (d.hint ++ ('|' :: (d.gap2 ++ (d.ak ++ (d.ans ++ rest))))))
      = some (d.hint, (d.ans, rest)) := by
    rw [litThen_exact (plusThen notPipe matchAnswerPart) hintKw d.hk hhk]; exact h5
  have hstop_hk : (d.hk ++ (d.hint ++ ('|' :: (d.gap2 ++
      (d.ak ++ (d.ans ++ rest)))))).takeWhile isJsWs = [] := by
    rw [hkshape, List.cons_append]; exact takeWhile_nil_cons hkx_ws
  have h7 : wsThen (litThen hintKw (plusThen notPipe matchAnswerPart))
      (d.gap1 ++ (d.hk ++ (d.hint ++ ('|' :: (d.gap2 ++ (d.ak ++ (d.ans ++ rest)))))))
      = some (d.hint, (d.ans, rest)) :=
    wsThen_exact _ _ _ _ hgap1_ws hstop_hk h6
  have h8 : matchHintPart ('|' :: (d.gap1 ++ (d.hk ++ (d.hint ++
      ('|' :: (d.gap2 ++ (d.ak ++ (d.ans ++ rest))))))))
      = some (d.hint, (d.ans, rest)) := by
    unfold matchHintPart; exact pipeWs_pipe _ _ _ h7
  have hstop_p1 : ('|' :: (d.gap1 ++ (d.hk ++ (d.hint ++
      ('|' :: (d.gap2 ++ (d.ak ++ (d.ans ++ rest)))))))).takeWhile notPipe = [] :=
    takeWhile_nil_cons (by decide)
  have h9 : matchBody (d.instr ++ ('|' :: (d.gap1 ++ (d.hk ++ (d.hint ++
      ('|' :: (d.gap2 ++ (d.ak ++ (d.ans ++ rest)))))))))
      = some (d.instr, (d.hint, (d.ans, rest))) := by
    unfold matchBody
    exact plusThen_exact notPipe matchHintPart d.instr _ _ hinstr_ne hinstr_np hstop_p1 h8
  have h10 : digitCont (':' :: (d.instr ++ ('|' :: (d.gap1 ++ (d.hk ++ (d.hint ++
      ('|' :: (d.gap2 ++ (d.ak ++ (d.ans ++ rest))))))))))
      = some (d.instr, (d.hint, (d.ans, rest))) := by
    simp only [digitCont, if_pos]
    · exact h9
  have hstop_ds : ((':' :: (d.instr ++ ('|' :: (d.gap1 ++ (d.hk ++ (d.hint ++
      ('|' :: (d.gap2 ++ (d.ak ++ (d.ans ++ rest))))))))))).takeWhile isDigitCh = [] :=
    takeWhile_nil_cons (by decide)
  have h11 : matchDigitsColon (d.ds ++ (':' :: (d.instr ++ ('|' :: (d.gap1 ++
      (d.hk ++ (d.hint ++ ('|' :: (d.gap2 ++ (d.ak ++ (d.ans ++ rest)))))))))))
      = some (d.ds, (d.instr, (d.hint, (d.ans, rest)))) := by
    rw [matchDigitsColon_eq]
    exact plusThen_exact isDigitCh digitCont d.ds _ _ hds_ne hds_all hstop_ds h10
  have h12 : litThen stepKw matchDigitsColon (d.sk ++ (d.ds ++ (':' :: (d.instr ++
      ('|' :: (d.gap1 ++ (d.hk ++ (d.hint ++ ('|' :: (d.gap2 ++
      (d.ak ++ (d.ans ++ rest))))))))))))
      = some (d.ds, (d.instr, (d.hint, (d.ans, rest)))) := by
    rw [litThen_exact matchDigitsColon stepKw d.sk hsk]; exact h11
  show matchAt (d.render ++ rest) = some ((d.instr, d.hint, d.ans), rest)
  unfold WfStep.render
  simp only [List.append_assoc, List.cons_append]
  unfold matchAt
  rw [h12]

theorem matchAt_cons_none {c : Char} (t : List Char) (h : ciEq 's' c = false) :
    matchAt (c :: t) = none := by
  simp only [matchAt, stepKw, litThen, h]
  simp

theorem findFrom_of_matchAt {s : List Char} {r : Caps3 × List Char}
    (h : matchAt s = some r) : findFrom s = some r := by
  cases s with
  | nil => simpa [findFrom] using h
  | cons c t => simp [findFrom, h]

theorem findFrom_cons_none {c : Char} {t : List Char} (h : matchAt (c :: t) = none) :
    findFrom (c :: t) = findFrom t := by
  simp [findFrom, h]

theorem execLoopFuel_succ_some (n : Nat) {s : List Char} {caps : Caps3} {rest : List Char}
    (h : findFrom s = some (caps, rest)) :
    execLoopFuel (n + 1) s = mkStep caps :: execLoopFuel n rest := by
  simp only [execLoopFuel, h]

theorem execLoop_eq_some {s : List Char} {caps : Caps3} {rest : List Char}
    (h : findFrom s = some (caps, rest)) :
    execLoop s = mkStep caps :: execLoop rest := by
  have hlt := findFrom_some_len s caps rest h
  unfold execLoop
  rw [execLoopFuel_succ_some s.length h]
  exact congrArg _ (execLoopFuel_congr s.length (rest.length + 1) rest (by omega) (by omega))

theorem findFrom_nil : findFrom [] = none := rfl

theorem execLoop_eq_none {s : List Char} (h : findFrom s = none) : execLoop s = [] := by
  unfold execLoop
  simp only [execLoopFuel, h]

theorem execLoop_cons_nl (xs : List Char) : execLoop ('\n' :: xs) = execLoop xs := by
  have hm : matchAt ('\n' :: xs) = none := matchAt_cons_none xs (by decide)
  have hf : findFrom ('\n' :: xs) = findFrom xs := findFrom_cons_none hm
  cases hfx : findFrom xs with
  | none => rw [execLoop_eq_none (hf.trans hfx), execLoop_eq_none hfx]
  | some pr =>
    obtain ⟨caps, rest⟩ := pr
    rw [execLoop_eq_some (hf.trans hfx), execLoop_eq_some hfx]

/-- Join well-formed lines with single newlines, as the multi-line solution
text presents them. -/
def renderLines : List WfStep → List Char
  | [] => []
  | [d] => d.render
  | d :: e :: r => d.render ++ '\n' :: renderLines (e :: r)

theorem execLoop_renderLines :
    ∀ (L : List WfStep), (∀ d ∈ L, d.ok) →
      execLoop (renderLines L) = L.map WfStep.toStep := by
  intro L
  induction L with
  | nil =>
    intro _
    simp only [renderLines, List.map_nil]
    exact execLoop_eq_none findFrom_nil
  | cons d L' ih =>
    intro hok
    have hd : d.ok := hok d (by simp)
    have hok' : ∀ x ∈ L', x.ok := fun x hx => hok x (by simp [hx])
    cases L' with
    | nil =>
      have hm : matchAt (d.render ++ []) = some ((d.instr, d.hint, d.ans), []) :=
        matchAt_render d [] hd rfl
      rw [List.append_nil] at hm
      show execLoop d.render = _
      rw [execLoop_eq_some (findFrom_of_matchAt hm), execLoop_eq_none findFrom_nil]
      rfl
    | cons e r =>
      have hm : matchAt (d.render ++ ('\n' :: renderLines (e :: r)))
          = some ((d.instr, d.hint, d.ans), '\n' :: renderLines (e :: r)) :=
        matchAt_render d _ hd (takeWhile_nil_cons (by decide))
      show execLoop (d.render ++ '\n' :: renderLines (e :: r)) = _
      rw [execLoop_eq_some (findFrom_of_matchAt hm), execLoop_cons_nl, ih hok']
      rfl

theorem parseSteps_renderLines (L : List WfStep) (hne : L ≠ [])
    (hok : ∀ d ∈ L, d.ok) :
    parseSteps (String.mk (renderLines L)) = L.map WfStep.toStep := by
  have he : execLoop (String.mk (renderLines L)).data = L.map WfStep.toStep :=
    execLoop_renderLines L hok
  simp only [parseSteps, he]
  rw [if_neg]
  simp [List.isEmpty_iff, hne]

/-- C1: for every input text consisting of k ≥ 1 well-formed lines
`Step <n>: <instruction> | Hint: <hint> | Answer: <answer>` (keywords in any
letter case), `parseSteps` returns exactly k `Step` records in source order,
each field being the corresponding captured substring with surrounding
whitespace trimmed. -/
theorem claim1_parser_wellformed (L : List WfStep) (hne : L ≠ [])
    (hok : ∀ d ∈ L, d.ok) :
    parseSteps (String.mk (renderLines L)) = L.map WfStep.toStep ∧
    (parseSteps (String.mk (renderLines L))).length = L.length := by
  have h := parseSteps_renderLines L hne hok
  exact ⟨h, by rw [h, List.length_map]⟩

def wf1 : WfStep :=
  ⟨ ("Step " : String).data, ("1" : String).data, (" Solve for x " : String).data,
    (" " : String).data, ("Hint:" : String).data, (" isolate x " : String).data,
    (" " : String).data, ("Answer:" : String).data, (" x = 4" : String).data ⟩

def wf2 : WfStep :=
  ⟨ ("Step " : String).data, ("2" : String).data, (" Verify " : String).data,
    (" " : String).data, ("Hint:" : String).data, (" substitute back " : String).data,
    (" " : String).data, ("Answer:" : String).data, (" yes" : String).data ⟩

/-- Witness for C1: the two-line scenario-1 input yields exactly the two
expected trimmed steps. -/
theorem claim1_witness :
    ([wf1, wf2] ≠ ([] : List WfStep))
    ∧ (∀ d ∈ [wf1, wf2], d.ok)
    ∧ parseSteps ("Step 1: Solve for x | Hint: isolate x | Answer: x = 4\nStep 2: Verify | Hint: substitute back | Answer: yes")
      = [⟨("Solve for x" : String), ("isolate x" : String), ("x = 4" : String)⟩,
         ⟨("Verify" : String), ("substitute back" : String), ("yes" : String)⟩] := by
  refine ⟨by decide, by decide, ?_⟩
  have h := (claim1_parser_wellformed [wf1, wf2] (by decide) (by decide)).1
  have e : String.mk (renderLines [wf1, wf2])
      = ("Step 1: Solve for x | Hint: isolate x | Answer: x = 4\nStep 2: Verify | Hint: substitute back | Answer: yes" : String) := by
    decide
  rw [e] at h
  rw [h]
  decide

theorem ci_s_of_ws {c : Char} (h : isJsWs c = true) : ciEq 's' c = false := by
  have hm : c ∈ wsChars := List.mem_of_elem_eq_true (by simpa [isJsWs] using h)
  exact (by decide : ∀ x ∈ wsChars, ciEq 's' x = false) c hm

theorem findFrom_wsonly :
    ∀ (s : List Char), (∀ c ∈ s, isJsWs c = true) → findFrom s = none := by
  intro s
  induction s with
  | nil => intro _; exact findFrom_nil
  | cons c t ih =>
    intro h
    have hm : matchAt (c :: t) = none := matchAt_cons_none t (ci_s_of_ws (h c (by simp)))
    rw [findFrom_cons_none hm]
    exact ih (fun x hx => h x (by simp [hx]))

theorem dropWhile_all_iff {p : Char → Bool} :
    ∀ (l : List Char), (∀ c ∈ l.dropWhile p, p c = true) ↔ (∀ c ∈ l, p c = true) := by
  intro l
  induction l with
  | nil => simp
  | cons x xs ih =>
    by_cases hx : p x = true
    · simp [List.dropWhile_cons, hx, ih]
    · simp [List.dropWhile_cons, hx]

theorem jsTrim_nil_iff (l : List Char) :
    jsTrim l = [] ↔ ∀ c ∈ l, isJsWs c = true := by
  unfold jsTrim
  rw [List.reverse_eq_nil_iff, List.dropWhile_eq_nil_iff]
  simp only [List.mem_reverse]
  exact dropWhile_all_iff l

theorem splitNl_ne_nil : ∀ (s : List Char), splitNl s ≠ [] := by
  intro s
  cases s with
  | nil => simp [splitNl]
  | cons c t =>
    simp only [splitNl]
    split
    · simp
    · split <;> simp

theorem splitNl_all_iff {p : Char → Bool} (hnl : p '\n' = true) :
    ∀ (s : List Char),
      (∀ l ∈ splitNl s, ∀ c ∈ l, p c = true) ↔ (∀ c ∈ s, p c = true) := by
  intro s
  induction s with
  | nil => simp [splitNl]
  | cons c t ih =>
    by_cases hc : (c == '\n') = true
    · have hc' : c = '\n' := by simpa using hc
      subst hc'
      simp only [splitNl, if_pos hc]
      constructor
      · intro h x hx
        rcases List.mem_cons.mp hx with rfl | hx'
        · exact hnl
        · exact (ih.mp (fun l hl => h l (by simp [hl]))) x hx'
      · intro h l hl
        rcases List.mem_cons.mp hl with rfl | hl'
        · simp
        · exact (ih.mpr (fun x hx => h x (by simp [hx]))) l hl'
    · obtain ⟨h0, r, hsplit⟩ : ∃ h0 r, splitNl t = h0 :: r := by
        cases hs : splitNl t with
        | nil => exact absurd hs (splitNl_ne_nil t)
        | cons h0 r => exact ⟨h0, r, rfl⟩
      have heq : splitNl (c :: t) = (c :: h0) :: r := by
        simp only [splitNl, hsplit]
        rw [if_neg (by simpa using hc)]
      rw [heq]
      rw [hsplit] at ih
      constructor
      · intro h x hx
        rcases List.mem_cons.mp hx with rfl | hx'
        · exact h (x :: h0) (by simp) x (by simp)
        · refine ih.mp ?_ x hx'
          intro l hl y hy
          rcases List.mem_cons.mp hl with rfl | hl2
          · exact h (c :: l) (by simp) y (by simp [hy])
          · exact h l (by simp [hl2]) y hy
      · intro h l hl
        have ht : ∀ x ∈ t, p x = true := fun x hx => h x (by simp [hx])
        have hlines := ih.mpr ht
        rcases List.mem_cons.mp hl with rfl | hl2
        · intro y hy
          rcases List.mem_cons.mp hy with rfl | hy2
          · exact h y (by simp)
          · exact hlines h0 (by simp) y hy2
        · exact hlines l (by simp [hl2])

/-- C2: whenever the step regex finds zero matches, `parseSteps` returns
exactly `min 4 (number of non-whitespace lines)` placeholder steps taken in
order from the first four non-whitespace lines, each instruction the line
verbatim with the fixed hint and answer strings; and the result is empty
precisely when the input is empty or whitespace-only. -/
theorem claim2_parser_fallback (s : String) (hz : execLoop s.data = []) :
    parseSteps s
      = (((splitNl s.data).filter (fun l => !(jsTrim l).isEmpty)).take 4).map placeholderStep
    ∧ (parseSteps s).length
      = min 4 ((splitNl s.data).filter (fun l => !(jsTrim l).isEmpty)).length
    ∧ (parseSteps s = [] ↔ ∀ c ∈ s.data, isJsWs c = true) := by
  have h1 : parseSteps s
      = (((splitNl s.data).filter (fun l => !(jsTrim l).isEmpty)).take 4).map
          placeholderStep := by
    unfold parseSteps
    rw [hz]
    rfl
  refine ⟨h1, ?_, ?_⟩
  · rw [h1, List.length_map, List.length_take]
  · rw [h1]
    constructor
    · intro h
      have ht4 : ((splitNl s.data).filter (fun l => !(jsTrim l).isEmpty)).take 4 = [] := by
        simpa using h
      have hf : (splitNl s.data).filter (fun l => !(jsTrim l).isEmpty) = [] := by
        rcases List.take_eq_nil_iff.mp ht4 with h4 | hnil
        · omega
        · exact hnil
      apply (splitNl_all_iff (by decide) s.data).mp
      intro l hl
      have hl2 := List.filter_eq_nil_iff.mp hf l hl
      exact (jsTrim_nil_iff l).mp (by simpa [List.isEmpty_iff] using hl2)
    · intro h
      have hlines := (splitNl_all_iff (by decide) s.data).mpr h
      have hf : (splitNl s.data).filter (fun l => !(jsTrim l).isEmpty) = [] := by
        apply List.filter_eq_nil_iff.mpr
        intro l hl
        have hnil : jsTrim l = [] := (jsTrim_nil_iff l).mpr (hlines l hl)
        simp [hnil]
      rw [hf]
      rfl

def c2text : String := "hello\nworld\n\n   \nfoo\nbar\nbaz"

/-- Witness for C2: a seven-line input with six non-whitespace lines and no
step markers yields exactly the first four lines as placeholder steps. -/
theorem claim2_witness :
    execLoop (c2text).data = []
    ∧ parseSteps c2text
      = [⟨("hello" : String), fallbackHint, fallbackAnswer⟩,
         ⟨("world" : String), fallbackHint, fallbackAnswer⟩,
         ⟨("foo" : String), fallbackHint, fallbackAnswer⟩,
         ⟨("bar" : String), fallbackHint, fallbackAnswer⟩]
    ∧ (parseSteps c2text).length = 4 := by
  have h := claim2_parser_fallback c2text (by decide)
  refine ⟨by decide, ?_, ?_⟩
  · rw [h.1]
    decide
  · rw [h.2.1]
    decide

/-- The Solution page state relevant to answer submission.  `db` models the
`completedSteps` value persisted in the `question_history` row
(`solution_data.completedSteps`). -/
structure SolState where
  currentStep : Nat
  completedSteps : Nat
  userAnswer : String
  showHint : Bool
  attemptedWrong : Bool
  wrongAttempts : Nat
  showAnswer : Bool
  validating : Bool
  db : Option Nat
deriving DecidableEq

/-- The body sent to the `validate-answer` function by the submit handler. -/
structure GradePayload where
  userAnswer : String
  expectedAnswer : String
  stepInstruction : String
  problemContext : String
deriving DecidableEq

/-- The toast shown by the submit handler. -/
inductive ToastKind where
  | silent
  | correct
  | wrong
  | error
deriving DecidableEq

/-- Outcome of the `supabase.functions.invoke("validate-answer")` call as
seen by the client: a thrown error, or a response whose `correct` field is
truthy or falsy. -/
inductive InvokeResult where
  | error
  | ok (correct : Bool)
deriving DecidableEq

structure SubmitResult where
  state : SolState
  payload : Option GradePayload
  toast : ToastKind
deriving DecidableEq

/-- `saveProgress`: persist the new completedSteps count. -/
def saveProgress (st : SolState) (newCompletedSteps : Nat) : SolState :=
  { st with db := some newCompletedSteps }

/-- `handleSubmitAnswer` from the Solution page (remote-grading variant):
guard on a current step and a non-blank answer, invoke the grader with the
trimmed answer, and on acceptance set `completedSteps` to `currentStep + 1`,
save it, and advance unless on the last step; on rejection bump the
wrong-attempt counter; on a thrown invoke error change no counters. -/
def handleSubmitAnswer (steps : List Step) (st : SolState) (r : InvokeResult) :
    SubmitResult :=
  match steps[st.currentStep]? with
  | none => ⟨st, none, ToastKind.silent⟩
  | some step =>
    if (jsTrim st.userAnswer.data).isEmpty then ⟨st, none, ToastKind.silent⟩
    else
      let payload : GradePayload :=
        ⟨String.mk (jsTrim st.userAnswer.data), step.answer, step.instruction,
         ("Math problem from uploaded image" : String)⟩
      match r with
      | InvokeResult.error => ⟨{ st with validating := false }, some payload, ToastKind.error⟩
      | InvokeResult.ok correct =>
        if correct then
          let newCompletedSteps := st.currentStep + 1
          let st1 := saveProgress { st with completedSteps := newCompletedSteps }
            newCompletedSteps
          if st.currentStep < steps.length - 1 then
            ⟨{ st1 with
                currentStep := st.currentStep + 1
                userAnswer := ("" : String)
                showHint := false
                attemptedWrong := false
                wrongAttempts := 0
                showAnswer := false
                validating := false },
             some payload, ToastKind.correct⟩
          else
            ⟨{ st1 with validating := false }, some payload, ToastKind.correct⟩
        else
          ⟨{ st with
              attemptedWrong := true
              wrongAttempts := st.wrongAttempts + 1
              validating := false },
           some payload, ToastKind.wrong⟩

/-- The Solution component's initial state from `location.state`
(`startStep || 0`, `initialCompletedSteps || 0`); the persisted value is the
one the navigation carried. -/
def initState (startStep initialCompleted : Option Nat) : SolState :=
  ⟨startStep.getD 0, initialCompleted.getD 0, ("" : String),
   false, false, 0, false, false, initialCompleted⟩

/-- States of the Solution page reachable through its event handlers:
initial navigation state, typing an answer, revealing hint or answer,
continuing from the summary (`setCurrentStep(completedSteps)`), and
submitting. -/
inductive Reachable (steps : List Step) : SolState → Prop where
  | init (ss ic : Option Nat) : Reachable steps (initState ss ic)
  | typeAnswer (st : SolState) (a : String) :
      Reachable steps st → Reachable steps { st with userAnswer := a }
  | revealHint (st : SolState) :
      Reachable steps st → Reachable steps { st with showHint := true }
  | revealAnswer (st : SolState) :
      Reachable steps st → Reachable steps { st with showAnswer := true }
  | continueSolving (st : SolState) :
      Reachable steps st → Reachable steps { st with currentStep := st.completedSteps }
  | submit (st : SolState) (r : InvokeResult) :
      Reachable steps st → Reachable steps (handleSubmitAnswer steps st r).state

/-- C4: when the grading invocation throws, the submit handler reports an
error toast — distinct from the wrong-answer outcome — and leaves
`completedSteps`, the wrong-attempt counters, the current step and the
persisted progress value unchanged. -/
theorem claim4_error_no_mutation (steps : List Step) (st : SolState)
    (h1 : st.currentStep < steps.length) (h2 : jsTrim st.userAnswer.data ≠ []) :
    (handleSubmitAnswer steps st InvokeResult.error).toast = ToastKind.error
    ∧ ToastKind.error ≠ ToastKind.wrong
    ∧ ToastKind.error ≠ ToastKind.correct
    ∧ (handleSubmitAnswer steps st InvokeResult.error).state.completedSteps = st.completedSteps
    ∧ (handleSubmitAnswer steps st InvokeResult.error).state.wrongAttempts = st.wrongAttempts
    ∧ (handleSubmitAnswer steps st InvokeResult.error).state.attemptedWrong = st.attemptedWrong
    ∧ (handleSubmitAnswer steps st InvokeResult.error).state.db = st.db
    ∧ (handleSubmitAnswer steps st InvokeResult.error).state.currentStep = st.currentStep := by
  have hget : steps[st.currentStep]? = some (steps[st.currentStep]) :=
    List.getElem?_eq_getElem h1
  have hie : (jsTrim st.userAnswer.data).isEmpty = false := by
    simpa [List.isEmpty_iff] using h2
  simp [handleSubmitAnswer, hget, hie]

/-- Witness for C4: a concrete one-step state with a failing invocation. -/
theorem claim4_witness :
    (0 : Nat) < ([⟨("i" : String), ("h" : String), ("a" : String)⟩] : List Step).length
    ∧ jsTrim (("x" : String)).data ≠ []
    ∧ (handleSubmitAnswer [⟨("i" : String), ("h" : String), ("a" : String)⟩]
        ⟨0, 0, ("x" : String), false, false, 0, false, false, some 0⟩
        InvokeResult.error).toast = ToastKind.error
    ∧ (handleSubmitAnswer [⟨("i" : String), ("h" : String), ("a" : String)⟩]
        ⟨0, 0, ("x" : String), false, false, 0, false, false, some 0⟩
        InvokeResult.error).state.completedSteps = 0 := by
  refine ⟨by decide, by decide, ?_, ?_⟩
  · exact (claim4_error_no_mutation
      [⟨("i" : String), ("h" : String), ("a" : String)⟩]
      ⟨0, 0, ("x" : String), false, false, 0, false, false, some 0⟩
      (by decide) (by decide)).1
  · exact (claim4_error_no_mutation
      [⟨("i" : String), ("h" : String), ("a" : String)⟩]
      ⟨0, 0, ("x" : String), false, false, 0, false, false, some 0⟩
      (by decide) (by decide)).2.2.2.1

def stepA : Step := ⟨("Solve" : String), ("h" : String), ("x" : String)⟩

def stC5 : SolState := { initState (some 0) (some 3) with userAnswer := ("x" : String) }

/-- Counterexample to C5 as stated: a reachable state of the Solution page
entered with `startStep = 0` while the stored `completedSteps` is `3`; when
the grader accepts, the handler sets `completedSteps` to `currentStep + 1 =
1`, not to the previous value plus one. -/
theorem claim5_counterexample :
    Reachable [stepA] stC5
    ∧ stC5.completedSteps = 3
    ∧ (handleSubmitAnswer [stepA] stC5 (InvokeResult.ok true)).toast = ToastKind.correct
    ∧ (handleSubmitAnswer [stepA] stC5 (InvokeResult.ok true)).state.completedSteps = 1
    ∧ (handleSubmitAnswer [stepA] stC5 (InvokeResult.ok true)).state.completedSteps
        ≠ stC5.completedSteps + 1
    ∧ (handleSubmitAnswer [stepA] stC5 (InvokeResult.ok true)).state.db = some 1 := by
  refine ⟨?_, by decide, by decide, by decide, by decide, by decide⟩
  exact Reachable.typeAnswer (initState (some 0) (some 3)) ("x" : String)
    (Reachable.init (some 0) (some 3))

/-- C5 amended: when the grader accepts, the handler sets the in-memory and
persisted `completedSteps` to `currentStep + 1`; this is an increment of the
previous value by exactly one precisely in states where `currentStep` equals
the current `completedSteps`. -/
theorem claim5_amended (steps : List Step) (st : SolState)
    (h1 : st.currentStep < steps.length) (h2 : jsTrim st.userAnswer.data ≠ []) :
    (handleSubmitAnswer steps st (InvokeResult.ok true)).state.completedSteps
      = st.currentStep + 1
    ∧ (handleSubmitAnswer steps st (InvokeResult.ok true)).state.db
      = some (st.currentStep + 1)
    ∧ (st.currentStep = st.completedSteps →
        (handleSubmitAnswer steps st (InvokeResult.ok true)).state.completedSteps
          = st.completedSteps + 1
        ∧ (handleSubmitAnswer steps st (InvokeResult.ok true)).state.db
          = some (st.completedSteps + 1)) := by
  have hget : steps[st.currentStep]? = some (steps[st.currentStep]) :=
    List.getElem?_eq_getElem h1
  have hie : (jsTrim st.userAnswer.data).isEmpty = false := by
    simpa [List.isEmpty_iff] using h2
  simp only [handleSubmitAnswer, hget, hie, Bool.false_eq_true, if_false, if_true]
  refine ⟨by split <;> rfl, by split <;> rfl, ?_⟩
  intro heq
  rw [← heq]
  exact ⟨by split <;> rfl, by split <;> rfl⟩

/-- Witness for C5 amended: an aligned state (`currentStep = completedSteps
= 1`) in a three-step problem; acceptance moves both counters to 2. -/
theorem claim5_witness :
    (1 : Nat) < ([stepA, stepA, stepA] : List Step).length
    ∧ jsTrim (("y" : String)).data ≠ []
    ∧ (handleSubmitAnswer [stepA, stepA, stepA]
        ⟨1, 1, ("y" : String), false, false, 0, false, false, some 1⟩
        (InvokeResult.ok true)).state.completedSteps = 2
    ∧ (handleSubmitAnswer [stepA, stepA, stepA]
        ⟨1, 1, ("y" : String), false, false, 0, false, false, some 1⟩
        (InvokeResult.ok true)).state.db = some 2 := by
  have h := claim5_amended [stepA, stepA, stepA]
    ⟨1, 1, ("y" : String), false, false, 0, false, false, some 1⟩
    (by decide) (by decide)
  exact ⟨by decide, by decide, (h.2.2 rfl).1, (h.2.2 rfl).2⟩

/-- C10: a blank (empty or whitespace-only) typed answer makes the submit
handler return with no state change and no grading invocation; whenever the
grader is invoked, the typed answer was non-blank and the payload carries it
trimmed, together with the current step's expected answer and instruction. -/
theorem claim10_blank_guard (steps : List Step) (st : SolState) (r : InvokeResult) :
    (jsTrim st.userAnswer.data = [] →
      handleSubmitAnswer steps st r = ⟨st, none, ToastKind.silent⟩)
    ∧ (∀ p, (handleSubmitAnswer steps st r).payload = some p →
        jsTrim st.userAnswer.data ≠ []
        ∧ p.userAnswer = String.mk (jsTrim st.userAnswer.data)
        ∧ (∃ hh : st.currentStep < steps.length,
            p.expectedAnswer = (steps.get ⟨st.currentStep, hh⟩).answer
            ∧ p.stepInstruction = (steps.get ⟨st.currentStep, hh⟩).instruction)
        ∧ p.problemContext = ("Math problem from uploaded image" : String)) := by
  constructor
  · intro hblank
    have hie : (jsTrim st.userAnswer.data).isEmpty = true := by
      simp [List.isEmpty_iff, hblank]
    unfold handleSubmitAnswer
    cases hget : steps[st.currentStep]? with
    | none => rfl
    | some step => simp [hie]
  · intro p hp
    cases hget : steps[st.currentStep]? with
    | none =>
      have hnone : handleSubmitAnswer steps st r = ⟨st, none, ToastKind.silent⟩ := by
        unfold handleSubmitAnswer
        rw [hget]
      rw [hnone] at hp
      exact absurd hp (by simp)
    | some step =>
      by_cases hie : (jsTrim st.userAnswer.data).isEmpty = true
      · have hz : handleSubmitAnswer steps st r = ⟨st, none, ToastKind.silent⟩ := by
          unfold handleSubmitAnswer
          rw [hget]
          simp [hie]
        rw [hz] at hp
        exact absurd hp (by simp)
      · have hie2 : (jsTrim st.userAnswer.data).isEmpty = false := by
          simpa using hie
        have hbl : jsTrim st.userAnswer.data ≠ [] := by
          simpa [List.isEmpty_iff] using hie
        obtain ⟨hlt, hstep⟩ := List.getElem?_eq_some_iff.mp hget
        have hpay : (handleSubmitAnswer steps st r).payload
            = some ⟨String.mk (jsTrim st.userAnswer.data), step.answer, step.instruction,
                ("Math problem from uploaded image" : String)⟩ := by
          unfold handleSubmitAnswer
          rw [hget]
          simp only [hie2, Bool.false_eq_true, if_false]
          cases r with
          | error => rfl
          | ok correct =>
            dsimp only
            split
            · split <;> rfl
            · rfl
        have hpx := Option.some.inj (hp.symm.trans hpay)
        subst hpx
        refine ⟨hbl, rfl, ⟨hlt, ?_, ?_⟩, rfl⟩
        · show step.answer = (steps.get ⟨st.currentStep, hlt⟩).answer
          rw [List.get_eq_getElem, hstep]
        · show step.instruction = (steps.get ⟨st.currentStep, hlt⟩).instruction
          rw [List.get_eq_getElem, hstep]

def stepsC10 : List Step := [⟨("inst" : String), ("hint" : String), ("ans" : String)⟩]

def stBlank : SolState := ⟨0, 0, ("   " : String), false, false, 0, false, false, none⟩

def stTyped : SolState := ⟨0, 0, (" 42 " : String), false, false, 0, false, false, none⟩

def p10 : GradePayload :=
  ⟨("42" : String), ("ans" : String), ("inst" : String),
   ("Math problem from uploaded image" : String)⟩

/-- Witness for C10: a whitespace-only answer is a no-op with no invocation,
and a padded answer is graded trimmed against the current step. -/
theorem claim10_witness :
    (jsTrim stBlank.userAnswer.data = []
      ∧ handleSubmitAnswer stepsC10 stBlank (InvokeResult.ok true)
          = ⟨stBlank, none, ToastKind.silent⟩)
    ∧ (jsTrim stTyped.userAnswer.data ≠ []
      ∧ p10.userAnswer = String.mk (jsTrim stTyped.userAnswer.data)
      ∧ (∃ hh : stTyped.currentStep < stepsC10.length,
          p10.expectedAnswer = (stepsC10.get ⟨stTyped.currentStep, hh⟩).answer
          ∧ p10.stepInstruction = (stepsC10.get ⟨stTyped.currentStep, hh⟩).instruction)
      ∧ p10.problemContext = ("Math problem from uploaded image" : String)) := by
  constructor
  · exact ⟨by decide,
      (claim10_blank_guard stepsC10 stBlank (InvokeResult.ok true)).1 (by decide)⟩
  · exact (claim10_blank_guard stepsC10 stTyped (InvokeResult.ok true)).2 p10 (by decide)

def punctChars : List Char := ['.', ',', ';', ':', '!', '?']

def isPunct (c : Char) : Bool := punctChars.contains c

/-- `normalizeAnswer` from the local-heuristic Solution page: trim,
lower-case (ASCII case mapping), delete every whitespace character
(`replace(/\s+/g, '')`), then delete every occurrence of `.,;:!?`
(`replace(/[.,;:!?]/g, '')` — all occurrences, not only trailing ones). -/
def normalizeAnswer (ans : String) : List Char :=
  (((jsTrim ans.data).map lcAscii).filter (fun c => !(isJsWs c))).filter
    (fun c => !(isPunct c))

/-- JavaScript `hay.includes(sub)`: `sub` occurs contiguously in `hay`. -/
def includesList (hay sub : List Char) : Bool := decide (sub <:+: hay)

/-- The acceptance test of the local heuristic grader (`isCorrect` in the
earlier `handleSubmitAnswer`). -/
def localIsCorrect (userAnswer expectedAnswer : String) : Bool :=
  let userNormalized := normalizeAnswer userAnswer
  let correctNormalized := normalizeAnswer expectedAnswer
  userNormalized == correctNormalized
    || (includesList correctNormalized userNormalized
        && decide (0 < userNormalized.length))
    || (includesList userNormalized correctNormalized
        && decide (0 < correctNormalized.length))

/-- Normalization as the amended claim words it: trim, lower-case, strip all
whitespace and strip all punctuation `.,;:!?` occurring anywhere. -/
def specNormalize (ans : String) : List Char :=
  ((jsTrim ans.data).map lcAscii).filter (fun c => !(isPunct c) && !(isJsWs c))

/-- Normalization as claim C9 words it verbatim: trim, lower-case, strip all
whitespace, and strip only the trailing punctuation `.,;:!?`. -/
def claimNormalize (ans : String) : List Char :=
  ((((jsTrim ans.data).map lcAscii).filter (fun c => !(isJsWs c))).reverse.dropWhile
    isPunct).reverse

/-- Counterexample to C9 as stated: the code accepts `1.5` against `15`
because it deletes the interior dot, while under trailing-only punctuation
stripping the two normal forms differ and neither contains the other. -/
theorem claim9_counterexample :
    localIsCorrect ("1.5" : String) ("15" : String) = true
    ∧ claimNormalize ("1.5" : String) ≠ claimNormalize ("15" : String)
    ∧ ¬(claimNormalize ("1.5" : String) ≠ []
        ∧ claimNormalize ("1.5" : String) <:+: claimNormalize ("15" : String))
    ∧ ¬(claimNormalize ("15" : String) ≠ []
        ∧ claimNormalize ("15" : String) <:+: claimNormalize ("1.5" : String)) := by
  exact ⟨by decide, by decide, by decide, by decide⟩

/-- C9 amended: the local grader accepts exactly when, after normalizing
both strings (trimming, lower-casing, stripping all whitespace and all
punctuation `.,;:!?` anywhere, not just trailing), the normal forms are
equal or one is a nonempty contiguous substring of the other. -/
theorem claim9_amended (u e : String) :
    localIsCorrect u e = true ↔
      (specNormalize u = specNormalize e
       ∨ (specNormalize u ≠ [] ∧ specNormalize u <:+: specNormalize e)
       ∨ (specNormalize e ≠ [] ∧ specNormalize e <:+: specNormalize u)) := by
  have hnorm : ∀ s : String, normalizeAnswer s = specNormalize s := by
    intro s
    unfold normalizeAnswer specNormalize
    rw [List.filter_filter]
  simp only [localIsCorrect, includesList, hnorm]
  simp only [Bool.or_eq_true, Bool.and_eq_true, beq_iff_eq, decide_eq_true_eq,
    List.length_pos]
  constructor
  · rintro ((h | ⟨hi, hn⟩) | ⟨hi, hn⟩)
    · exact Or.inl h
    · exact Or.inr (Or.inl ⟨hn, hi⟩)
    · exact Or.inr (Or.inr ⟨hn, hi⟩)
  · rintro (h | ⟨hn, hi⟩ | ⟨hn, hi⟩)
    · exact Or.inl (Or.inl h)
    · exact Or.inl (Or.inr ⟨hi, hn⟩)
    · exact Or.inr ⟨hi, hn⟩

/-- A JSON value as `JSON.parse` produces it; number lexemes are kept
verbatim (no claim here depends on numeric value semantics). -/
inductive Json where
  | null : Json
  | bool (b : Bool) : Json
  | num (lexeme : String) : Json
  | str (s : String) : Json
  | arr (elems : List Json) : Json
  | obj (fields : List (String × Json)) : Json

/-- JSON insignificant whitespace. -/
def isJsonWs (c : Char) : Bool := c == ' ' || c == '\t' || c == '\n' || c == '\r'

def skipJWs (s : List Char) : List Char := s.dropWhile isJsonWs

def hexVal (c : Char) : Option Nat :=
  if isDigitCh c then some (c.toNat - 48)
  else if 97 ≤ c.toNat ∧ c.toNat ≤ 102 then some (c.toNat - 87)
  else if 65 ≤ c.toNat ∧ c.toNat ≤ 70 then some (c.toNat - 55)
  else none

def escChar : Char → Option Char
  | '"' => some '"'
  | '\\' => some '\\'
  | '/' => some '/'
  | 'b' => some (Char.ofNat 8)
  | 'f' => some (Char.ofNat 12)
  | 'n' => some '\n'
  | 'r' => some (Char.ofNat 13)
  | 't' => some '\t'
  | _ => none

/-- The body of a JSON string after the opening quote: characters up to the
closing quote, with the standard escapes; unescaped control characters are
rejected. -/
def strBody : List Char → Option (List Char × List Char)
  | [] => none
  | '"' :: r => some ([], r)
  | '\\' :: 'u' :: h1 :: h2 :: h3 :: h4 :: r =>
    match hexVal h1, hexVal h2, hexVal h3, hexVal h4 with
    | some a, some b, some c, some d =>
      (strBody r).map (fun p => (Char.ofNat (((a * 16 + b) * 16 + c) * 16 + d) :: p.1, p.2))
    | _, _, _, _ => none
  | '\\' :: e :: r =>
    match escChar e with
    | some c => (strBody r).map (fun p => (c :: p.1, p.2))
    | none => none
  | c :: r =>
    if c.toNat < 32 then none
    else (strBody r).map (fun p => (c :: p.1, p.2))

def digitsOf (s : List Char) : List Char × List Char :=
  (s.takeWhile isDigitCh, s.dropWhile isDigitCh)

def parseExpDigits (pre : List Char) (s : List Char) : Option (Json × List Char) :=
  match s with
  | '+' :: u =>
    match digitsOf u with
    | (ds, v) => if ds.isEmpty then none else some (Json.num (String.mk (pre ++ '+' :: ds)), v)
  | '-' :: u =>
    match digitsOf u with
    | (ds, v) => if ds.isEmpty then none else some (Json.num (String.mk (pre ++ '-' :: ds)), v)
  | _ =>
    match digitsOf s with
    | (ds, v) => if ds.isEmpty then none else some (Json.num (String.mk (pre ++ ds)), v)

def parseExpPart (pre : List Char) (s : List Char) : Option (Json × List Char) :=
  match s with
  | 'e' :: t => parseExpDigits (pre ++ ['e']) t
  | 'E' :: t => parseExpDigits (pre ++ ['E']) t
  | _ => some (Json.num (String.mk pre), s)

def parseNumTail (pre : List Char) (s : List Char) : Option (Json × List Char) :=
  match s with
  | '.' :: t =>
    match digitsOf t with
    | (ds, v) => if ds.isEmpty then none else parseExpPart (pre ++ '.' :: ds) v
  | _ => parseExpPart pre s

/-- JSON number grammar: optional minus, `0` or a nonzero-led digit run,
optional fraction and exponent. -/
def parseNum (s : List Char) : Option (Json × List Char) :=
  match s with
  | '-' :: s1 =>
    (match s1 with
     | '0' :: t1 => parseNumTail ['-', '0'] t1
     | c :: t1 =>
       if isDigitCh c then
         match digitsOf (c :: t1) with
         | (ds, v) => parseNumTail ('-' :: ds) v
       else none
     | [] => none)
  | '0' :: t1 => parseNumTail ['0'] t1
  | c :: t1 =>
    if isDigitCh c then
      match digitsOf (c :: t1) with
      | (ds, v) => parseNumTail ds v
    else none
  | [] => none

mutual

/-- Fuel-indexed recursive-descent JSON value parser (the fuel only bounds
nesting; `jsonParse` supplies enough for any input). -/
def parseVal : Nat → List Char → Option (Json × List Char)
  | 0, _ => none
  | f + 1, s =>
    match skipJWs s with
    | 'n' :: 'u' :: 'l' :: 'l' :: r => some (Json.null, r)
    | 't' :: 'r' :: 'u' :: 'e' :: r => some (Json.bool true, r)
    | 'f' :: 'a' :: 'l' :: 's' :: 'e' :: r => some (Json.bool false, r)
    | '"' :: r => (strBody r).map (fun p => (Json.str (String.mk p.1), p.2))
    | '[' :: r =>
      (match skipJWs r with
       | ']' :: r2 => some (Json.arr [], r2)
       | r2 => (parseItems f r2).map (fun p => (Json.arr p.1, p.2)))
    | '\x7b' :: r =>
      (match skipJWs r with
       | '\x7d' :: r2 => some (Json.obj [], r2)
       | r2 => (parseMembers f r2).map (fun p => (Json.obj p.1, p.2)))
    | r => parseNum r

def parseItems : Nat → List Char → Option (List Json × List Char)
  | 0, _ => none
  | f + 1, s =>
    match parseVal f s with
    | none => none
    | some (v, r) =>
      match skipJWs r with
      | ',' :: r2 =>
        (match parseItems f r2 with
         | none => none
         | some (vs, r3) => some (v :: vs, r3))
      | ']' :: r2 => some ([v], r2)
      | _ => none

def parseMembers : Nat → List Char → Option (List (String × Json) × List Char)
  | 0, _ => none
  | f + 1, s =>
    match skipJWs s with
    | '"' :: r =>
      (match strBody r with
       | none => none
       | some (k, r2) =>
         match skipJWs r2 with
         | ':' :: r3 =>
           (match parseVal f r3 with
            | none => none
            | some (v, r4) =>
              match skipJWs r4 with
              | ',' :: r5 =>
                (match parseMembers f r5 with
                 | none => none
                 | some (ms, r6) => some ((String.mk k, v) :: ms, r6))
              | '\x7d' :: r5 => some ([(String.mk k, v)], r5)
              | _ => none)
         | _ => none)
    | _ => none

end

/-- `JSON.parse`: parse one value and require only whitespace to remain. -/
def jsonParse (s : List Char) : Option Json :=
  match parseVal (2 * s.length + 4) s with
  | some (v, r) => if (skipJWs r).isEmpty then some v else none
  | none => none

/-- `aiResponse.replace(/```json\n?/g, '')`: delete every occurrence of three
backticks followed by `json` and an optional newline, scanning left to
right. -/
def stripJsonFence : List Char → List Char
  | '\x60' :: '\x60' :: '\x60' :: 'j' :: 's' :: 'o' :: 'n' :: '\n' :: t => stripJsonFence t
  | '\x60' :: '\x60' :: '\x60' :: 'j' :: 's' :: 'o' :: 'n' :: t => stripJsonFence t
  | c :: t => c :: stripJsonFence t
  | [] => []

/-- `.replace(/```\n?/g, '')`: delete every remaining fence. -/
def stripBareFence : List Char → List Char
  | '\x60' :: '\x60' :: '\x60' :: '\n' :: t => stripBareFence t
  | '\x60' :: '\x60' :: '\x60' :: t => stripBareFence t
  | c :: t => c :: stripBareFence t
  | [] => []

/-- The `cleanedResponse` computation of the validate-answer function:
strip the fences, then trim. -/
def cleanAi (s : List Char) : List Char := jsTrim (stripBareFence (stripJsonFence s))

def needleA : List Char := ("\"correct\": true" : String).data

def needleB : List Char := ("\"correct\":true" : String).data

/-- `aiResponse.toLowerCase()`, modelled on the ASCII range (the substrings
searched for are pure ASCII). -/
def lowerList (s : List Char) : List Char := s.map lcAscii

/-- The parse-failure fallback boolean:
`aiResponse.toLowerCase().includes('"correct": true) || ...includes('"correct":true')`. -/
def fallbackCorrect (raw : List Char) : Bool :=
  includesList (lowerList raw) needleA || includesList (lowerList raw) needleB

/-- The grading `result` computed from the upstream model response: the
cleaned body parsed as JSON, or on parse failure the fallback object
`\x7bcorrect: <substring search>, feedback: "Answer evaluated"\x7d`. -/
def aiResult (content : String) : Json :=
  match jsonParse (cleanAi content.data) with
  | some v => v
  | none =>
    Json.obj [(("correct" : String), Json.bool (fallbackCorrect content.data)),
              (("feedback" : String), Json.str ("Answer evaluated" : String))]

/-- A request body for the validate-answer function: each expected field is
present with a string value or absent. -/
structure ReqBody where
  userAnswer : Option String
  expectedAnswer : Option String
  stepInstruction : Option String
  problemContext : Option String
deriving DecidableEq

/-- A request body accepted by the zod schema; `userAnswer` is stored
trimmed, as `z.string().trim()` transforms it. -/
structure ValidBody where
  userAnswer : String
  expectedAnswer : String
  stepInstruction : String
  problemContext : Option String
deriving DecidableEq

/-- `requestSchema.safeParse`: `userAnswer` is required, trimmed and then
bounded by 1000; `expectedAnswer` (≤ 500) and `stepInstruction` (≤ 1000) are
required; `problemContext` is optional with bound 500.  Note the zod chain
`z.string().trim().max(1000)` checks the bound on the trimmed value. -/
def requestSchema (b : ReqBody) : Option ValidBody :=
  match b.userAnswer, b.expectedAnswer, b.stepInstruction with
  | some u, some e, some si =>
    if (jsTrim u.data).length ≤ 1000 ∧ e.length ≤ 500 ∧ si.length ≤ 1000 then
      match b.problemContext with
      | some pc =>
        if pc.length ≤ 500 then some ⟨String.mk (jsTrim u.data), e, si, some pc⟩ else none
      | none => some ⟨String.mk (jsTrim u.data), e, si, none⟩
    else none
  | _, _, _ => none

/-- The caller's authorization state as the function observes it: no
`Authorization` header, a header whose token `auth.getUser` rejects, or a
valid identity. -/
inductive AuthState where
  | noHeader
  | invalid
  | valid
deriving DecidableEq

/-- Outcome of the upstream chat-completions fetch: a non-ok HTTP response,
or an ok response whose message content is the given string. -/
inductive Upstream where
  | fail
  | succ (content : String)
deriving DecidableEq

structure HandlerResult where
  status : Nat
  body : Json
  upstreamCalled : Bool

/-- The validate-answer edge function: missing API key is a thrown error
(500); a missing or invalid bearer identity is rejected 401 before
validation; a body the schema rejects is a 400; only then is the upstream
LLM called, its failure surfacing as a 500 and its success as a 200 whose
body is the parsed (or fallback) grading result. -/
def validateAnswerHandler (hasKey : Bool) (auth : AuthState) (b : ReqBody)
    (up : Upstream) : HandlerResult :=
  if !hasKey then
    ⟨500, Json.obj [(("error" : String), Json.str ("LOVABLE_API_KEY not configured" : String))],
     false⟩
  else
    match auth with
    | AuthState.noHeader =>
      ⟨401, Json.obj [(("error" : String), Json.str ("Missing authorization header" : String))],
       false⟩
    | AuthState.invalid =>
      ⟨401, Json.obj [(("error" : String), Json.str ("Unauthorized" : String))], false⟩
    | AuthState.valid =>
      match requestSchema b with
      | none =>
        ⟨400, Json.obj [(("error" : String), Json.str ("Invalid input" : String))], false⟩
      | some _ =>
        match up with
        | Upstream.fail =>
          ⟨500, Json.obj [(("error" : String), Json.str ("AI API error" : String))], true⟩
        | Upstream.succ content => ⟨200, aiResult content, true⟩

/-- Exactly the documented grading shape: an object with a boolean `correct`
field and a string `feedback` field (in either order). -/
def isGradeShape : Json → Bool
  | Json.obj [(k1, Json.bool _), (k2, Json.str _)] =>
    (k1 == ("correct" : String)) && (k2 == ("feedback" : String))
  | Json.obj [(k1, Json.str _), (k2, Json.bool _)] =>
    (k1 == ("feedback" : String)) && (k2 == ("correct" : String))
  | _ => false

/-- C7: a grading response wrapped in a ```json fenced code block parses to
exactly the same result as the bare object, and that result is the parsed
object itself (code-fence stripping round-trips). -/
theorem claim7_fence_roundtrip :
    aiResult ("\x60\x60\x60json\n\x7b\"correct\": true, \"feedback\": \"ok\"\x7d\n\x60\x60\x60" : String)
      = aiResult ("\x7b\"correct\": true, \"feedback\": \"ok\"\x7d" : String)
    ∧ aiResult ("\x7b\"correct\": true, \"feedback\": \"ok\"\x7d" : String)
      = Json.obj [(("correct" : String), Json.bool true),
                  (("feedback" : String), Json.str ("ok" : String))] :=
  ⟨rfl, rfl⟩

/-- C8: for any authorized, schema-valid request whose upstream response
body is not parseable as JSON after fence stripping, the endpoint answers
with the fallback object whose `feedback` is the fixed string
`Answer evaluated` and whose `correct` is true exactly when the lower-cased
raw response contains `"correct": true` or `"correct":true`. -/
theorem claim8_fallback_iff (b : ReqBody) (vb : ValidBody) (content : String)
    (hv : requestSchema b = some vb)
    (hp : jsonParse (cleanAi content.data) = none) :
    (validateAnswerHandler true AuthState.valid b (Upstream.succ content)).body
      = Json.obj [(("correct" : String), Json.bool (fallbackCorrect content.data)),
                  (("feedback" : String), Json.str ("Answer evaluated" : String))]
    ∧ (fallbackCorrect content.data = true ↔
        (needleA <:+: lowerList content.data ∨ needleB <:+: lowerList content.data)) := by
  constructor
  · have hh : validateAnswerHandler true AuthState.valid b (Upstream.succ content)
        = ⟨200, aiResult content, true⟩ := by
      simp [validateAnswerHandler, hv]
    rw [hh]
    show aiResult content = _
    unfold aiResult
    rw [hp]
  · unfold fallbackCorrect includesList
    simp only [Bool.or_eq_true, decide_eq_true_eq]

def b8 : ReqBody :=
  ⟨some ("u8" : String), some ("e8" : String), some ("s8" : String), none⟩

def vb8 : ValidBody := ⟨("u8" : String), ("e8" : String), ("s8" : String), none⟩

def c8content : String := "Sure! \"Correct\": TRUE"

/-- Witness for C8: a non-JSON response containing the marker in mixed case
falls back to `correct = true` with the fixed feedback. -/
theorem claim8_witness :
    requestSchema b8 = some vb8
    ∧ jsonParse (cleanAi c8content.data) = none
    ∧ (validateAnswerHandler true AuthState.valid b8 (Upstream.succ c8content)).body
        = Json.obj [(("correct" : String), Json.bool true),
                    (("feedback" : String), Json.str ("Answer evaluated" : String))]
    ∧ fallbackCorrect c8content.data = true := by
  have h := claim8_fallback_iff b8 vb8 c8content rfl rfl
  refine ⟨rfl, rfl, ?_, ?_⟩
  · rw [h.1]
    rfl
  · exact h.2.mpr (Or.inl (by decide))

def bC6 : ReqBody :=
  ⟨some ("a" : String), some ("b" : String), some ("c" : String), none⟩

/-- Counterexample to C6 as stated: an upstream body `123` is valid JSON, so
the endpoint returns HTTP 200 with body `123` — not an object with a boolean
`correct` and a string `feedback`. -/
theorem claim6_counterexample :
    (validateAnswerHandler true AuthState.valid bC6 (Upstream.succ ("123" : String))).status = 200
    ∧ (validateAnswerHandler true AuthState.valid bC6
        (Upstream.succ ("123" : String))).body = Json.num ("123" : String)
    ∧ isGradeShape (validateAnswerHandler true AuthState.valid bC6
        (Upstream.succ ("123" : String))).body = false :=
  ⟨rfl, rfl, rfl⟩

/-- C6 amended: for every authorized schema-valid request the endpoint
returns HTTP 200 after calling the upstream model; the body is the upstream
response parsed as JSON verbatim when parsing succeeds — so it has the shape
`\x7bcorrect: boolean, feedback: string\x7d` exactly when the parsed value
has that shape — and always has that shape when structured parsing fails. -/
theorem claim6_amended (b : ReqBody) (vb : ValidBody) (content : String)
    (hv : requestSchema b = some vb) :
    (validateAnswerHandler true AuthState.valid b (Upstream.succ content)).status = 200
    ∧ (validateAnswerHandler true AuthState.valid b (Upstream.succ content)).upstreamCalled = true
    ∧ (∀ v, jsonParse (cleanAi content.data) = some v →
        (validateAnswerHandler true AuthState.valid b (Upstream.succ content)).body = v)
    ∧ (jsonParse (cleanAi content.data) = none →
        isGradeShape (validateAnswerHandler true AuthState.valid b
          (Upstream.succ content)).body = true)
    ∧ (∀ v, jsonParse (cleanAi content.data) = some v → isGradeShape v = true →
        isGradeShape (validateAnswerHandler true AuthState.valid b
          (Upstream.succ content)).body = true) := by
  have hh : validateAnswerHandler true AuthState.valid b (Upstream.succ content)
      = ⟨200, aiResult content, true⟩ := by
    simp [validateAnswerHandler, hv]
  rw [hh]
  refine ⟨rfl, rfl, ?_, ?_, ?_⟩
  · intro v hp
    show aiResult content = v
    unfold aiResult
    rw [hp]
  · intro hp
    show isGradeShape (aiResult content) = true
    unfold aiResult
    rw [hp]
    rfl
  · intro v hp hshape
    show isGradeShape (aiResult content) = true
    unfold aiResult
    rw [hp]
    exact hshape

def bC6w : ReqBody :=
  ⟨some ("aw" : String), some ("bw" : String), some ("cw" : String), none⟩

def vbC6w : ValidBody := ⟨("aw" : String), ("bw" : String), ("cw" : String), none⟩

def c6wContent : String := "\x7b\"correct\": false, \"feedback\": \"try again\"\x7d"

/-- Witness for C6 amended: a compliant upstream body produces a 200 whose
body is that object, which has the documented shape. -/
theorem claim6_witness :
    requestSchema bC6w = some vbC6w
    ∧ (validateAnswerHandler true AuthState.valid bC6w (Upstream.succ c6wContent)).status = 200
    ∧ (validateAnswerHandler true AuthState.valid bC6w (Upstream.succ c6wContent)).body
        = Json.obj [(("correct" : String), Json.bool false),
                    (("feedback" : String), Json.str ("try again" : String))]
    ∧ isGradeShape (validateAnswerHandler true AuthState.valid bC6w
        (Upstream.succ c6wContent)).body = true := by
  have h := claim6_amended bC6w vbC6w c6wContent rfl
  refine ⟨rfl, h.1, ?_, ?_⟩
  · exact h.2.2.1
      (Json.obj [(("correct" : String), Json.bool false),
                 (("feedback" : String), Json.str ("try again" : String))]) rfl
  · exact h.2.2.2.2
      (Json.obj [(("correct" : String), Json.bool false),
                 (("feedback" : String), Json.str ("try again" : String))]) rfl rfl

def bigAnswer : String := String.mk (' ' :: List.replicate 1000 'a')

def bC3 : ReqBody := ⟨some bigAnswer, some ("x" : String), some ("y" : String), none⟩

theorem dropWhile_replicate_a (n : Nat) :
    (List.replicate n 'a').dropWhile isJsWs = List.replicate n 'a' := by
  cases n with
  | zero => rfl
  | succ m => simp [List.replicate_succ, List.dropWhile_cons, (by decide : isJsWs 'a' = false)]

theorem jsTrim_bigAnswer : jsTrim bigAnswer.data = List.replicate 1000 'a' := by
  show jsTrim (' ' :: List.replicate 1000 'a') = List.replicate 1000 'a'
  unfold jsTrim
  rw [List.dropWhile_cons_of_pos (by decide), dropWhile_replicate_a, List.reverse_replicate,
    dropWhile_replicate_a, List.reverse_replicate]

/-- Counterexample to C3 as stated: a `userAnswer` of exactly 1001
characters (a leading space plus 1000 letters) is accepted by the schema —
zod's `z.string().trim().max(1000)` checks the bound on the trimmed value —
and the request is forwarded to the upstream model. -/
theorem claim3_counterexample :
    bigAnswer.length = 1001
    ∧ requestSchema bC3
        = some ⟨String.mk (List.replicate 1000 'a'), ("x" : String), ("y" : String), none⟩
    ∧ (validateAnswerHandler true AuthState.valid bC3
        (Upstream.succ ("whatever" : String))).upstreamCalled = true := by
  have hlen : bigAnswer.length = 1001 := by
    have h1 : bigAnswer.length = (' ' :: List.replicate 1000 'a').length := rfl
    rw [h1, List.length_cons, List.length_replicate]
  have hschema : requestSchema bC3
      = some ⟨String.mk (List.replicate 1000 'a'), ("x" : String), ("y" : String), none⟩ := by
    show requestSchema ⟨some bigAnswer, some ("x" : String), some ("y" : String), none⟩ = _
    unfold requestSchema
    simp only
    rw [if_pos]
    · rw [jsTrim_bigAnswer]
    · refine ⟨?_, by decide, by decide⟩
      rw [jsTrim_bigAnswer, List.length_replicate]
  refine ⟨hlen, hschema, ?_⟩
  unfold validateAnswerHandler
  rw [hschema]
  rfl

/-- C3 amended: with the API key configured, a request without a valid
bearer identity is rejected 401 before the upstream call; an authorized
request the schema rejects is rejected 400 before the upstream call; and the
schema rejects exactly the requests missing a required field or exceeding a
bound — where the bound on `userAnswer` applies to its trimmed value
(`z.string().trim().max(1000)`), so an untrimmed length of 1001 alone does
not force rejection. -/
theorem claim3_amended (auth : AuthState) (b : ReqBody) (up : Upstream) :
    (auth ≠ AuthState.valid →
      (validateAnswerHandler true auth b up).status = 401
      ∧ (validateAnswerHandler true auth b up).upstreamCalled = false)
    ∧ (auth = AuthState.valid → requestSchema b = none →
      (validateAnswerHandler true auth b up).status = 400
      ∧ (validateAnswerHandler true auth b up).upstreamCalled = false)
    ∧ (requestSchema b = none ↔
        (b.userAnswer = none ∨ b.expectedAnswer = none ∨ b.stepInstruction = none
         ∨ (∃ u, b.userAnswer = some u ∧ 1000 < (jsTrim u.data).length)
         ∨ (∃ e, b.expectedAnswer = some e ∧ 500 < e.length)
         ∨ (∃ si, b.stepInstruction = some si ∧ 1000 < si.length)
         ∨ (∃ pc, b.problemContext = some pc ∧ 500 < pc.length))) := by
  refine ⟨?_, ?_, ?_⟩
  · intro hne
    cases auth with
    | noHeader => exact ⟨rfl, rfl⟩
    | invalid => exact ⟨rfl, rfl⟩
    | valid => exact absurd rfl hne
  · intro he hn
    subst he
    have hh : validateAnswerHandler true AuthState.valid b up
        = ⟨400, Json.obj [(("error" : String), Json.str ("Invalid input" : String))], false⟩ := by
      unfold validateAnswerHandler
      rw [hn]
      rfl
    rw [hh]
    exact ⟨rfl, rfl⟩
  · unfold requestSchema
    cases hu : b.userAnswer with
    | none => simp [hu]
    | some u =>
      cases he : b.expectedAnswer with
      | none => simp [hu, he]
      | some e =>
        cases hsi : b.stepInstruction with
        | none => simp [hu, he, hsi]
        | some si =>
          dsimp only
          by_cases hb : (jsTrim u.data).length ≤ 1000 ∧ e.length ≤ 500 ∧ si.length ≤ 1000
          · obtain ⟨hb1, hb2, hb3⟩ := hb
            rw [if_pos ⟨hb1, hb2, hb3⟩]
            cases hpc : b.problemContext with
            | none =>
              constructor
              · intro hcon
                exact absurd hcon (by simp)
              · rintro (hcx | hcx | hcx | ⟨u2, hu2, hlen⟩ | ⟨e2, he2, hlen⟩
                  | ⟨si2, hsi2, hlen⟩ | ⟨pc2, hpc2, hlen⟩)
                · exact absurd hcx (by simp)
                · exact absurd hcx (by simp)
                · exact absurd hcx (by simp)
                · cases Option.some.inj hu2
                  exact absurd hlen (by omega)
                · cases Option.some.inj he2
                  exact absurd hlen (by omega)
                · cases Option.some.inj hsi2
                  exact absurd hlen (by omega)
                · exact absurd hpc2 (by simp)
            | some pc =>
              dsimp only
              by_cases hpcb : pc.length ≤ 500
              · rw [if_pos hpcb]
                constructor
                · intro hcon
                  exact absurd hcon (by simp)
                · rintro (hcx | hcx | hcx | ⟨u2, hu2, hlen⟩ | ⟨e2, he2, hlen⟩
                    | ⟨si2, hsi2, hlen⟩ | ⟨pc2, hpc2, hlen⟩)
                  · exact absurd hcx (by simp)
                  · exact absurd hcx (by simp)
                  · exact absurd hcx (by simp)
                  · cases Option.some.inj hu2
                    exact absurd hlen (by omega)
                  · cases Option.some.inj he2
                    exact absurd hlen (by omega)
                  · cases Option.some.inj hsi2
                    exact absurd hlen (by omega)
                  · cases Option.some.inj hpc2
                    exact absurd hlen (by omega)
              · rw [if_neg hpcb]
                constructor
                · intro _
                  exact Or.inr (Or.inr (Or.inr (Or.inr (Or.inr (Or.inr
                    ⟨pc, rfl, by omega⟩)))))
                · intro _
                  rfl
          · rw [if_neg hb]
            constructor
            · intro _
              have h3 : 1000 < (jsTrim u.data).length ∨ 500 < e.length ∨ 1000 < si.length := by
                by_contra hcon
                push_neg at hcon
                exact hb ⟨by omega, by omega, by omega⟩
              rcases h3 with h3 | h3 | h3
              · exact Or.inr (Or.inr (Or.inr (Or.inl ⟨u, rfl, h3⟩)))
              · exact Or.inr (Or.inr (Or.inr (Or.inr (Or.inl ⟨e, rfl, h3⟩))))
              · exact Or.inr (Or.inr (Or.inr (Or.inr (Or.inr (Or.inl ⟨si, rfl, h3⟩)))))
            · intro _
              rfl

def bC3bad : ReqBody :=
  ⟨some ("u" : String), some (String.mk (List.replicate 501 'e')), some ("s" : String), none⟩

def bC3noauth : ReqBody :=
  ⟨some ("u" : String), some ("e" : String), some ("s" : String), none⟩

/-- Witness for C3 amended: a request with no identity is 401 and not
forwarded; an authorized request with a 501-character `expectedAnswer` is
400, not forwarded, and is indeed rejected by the schema. -/
theorem claim3_witness :
    ((validateAnswerHandler true AuthState.noHeader bC3noauth
        (Upstream.succ ("z" : String))).status = 401
      ∧ (validateAnswerHandler true AuthState.noHeader bC3noauth
          (Upstream.succ ("z" : String))).upstreamCalled = false)
    ∧ ((validateAnswerHandler true AuthState.valid bC3bad (Upstream.succ ("z" : String))).status = 400
      ∧ (validateAnswerHandler true AuthState.valid bC3bad
          (Upstream.succ ("z" : String))).upstreamCalled = false)
    ∧ requestSchema bC3bad = none := by
  have hn : requestSchema bC3bad = none := by
    unfold requestSchema bC3bad
    dsimp only
    rw [if_neg]
    intro hcon
    have h2 := hcon.2.1
    have h3 : (String.mk (List.replicate 501 'e')).length = 501 := by
      have h4 : (String.mk (List.replicate 501 'e')).length
          = (List.replicate 501 'e').length := rfl
      rw [h4, List.length_replicate]
    omega
  refine ⟨(claim3_amended AuthState.noHeader bC3noauth (Upstream.succ ("z" : String))).1 (by decide),
    (claim3_amended AuthState.valid bC3bad (Upstream.succ ("z" : String))).2.1 rfl hn, hn⟩
